import Mathlib

/-!
Shallow embedding of the NetShield engine (vel5id/netshield) used to check
the natural-language specification against the code.

Conventions:
* Python floats are modelled as exact rationals (`ℚ`); the clock values
  passed to the monotonic-clock readers are explicit parameters.
* Python `int` counters are `ℕ`.
* Fallible constructors (`ValueError` on bad arguments) return `Option`.
-/

namespace NetShield

/-! ## Token bucket (src/shield/token_bucket.py) -/

/-- State of `TokenBucket`: the configuration fields, the float fields
`tokens`/`last_update`, and the four statistics counters. -/
structure TokenBucket where
  rate : ℚ
  bucket_size : ℚ
  tokens : ℚ
  last_update : ℚ
  total_bytes : ℕ
  throttled_bytes : ℕ
  packet_count : ℕ
  throttled_count : ℕ
  deriving DecidableEq, Repr

/-- `TokenBucket.__init__`: rejects non-positive rate or size (`ValueError`),
otherwise starts with a full bucket at the given monotonic-clock reading. -/
def TokenBucket.init (rate_bytes_per_sec bucket_size_bytes now : ℚ) :
    Option TokenBucket :=
  if rate_bytes_per_sec ≤ 0 then none
  else if bucket_size_bytes ≤ 0 then none
  else some
    { rate := rate_bytes_per_sec
      bucket_size := bucket_size_bytes
      tokens := bucket_size_bytes
      last_update := now
      total_bytes := 0
      throttled_bytes := 0
      packet_count := 0
      throttled_count := 0 }

/-- `TokenBucket.consume(num_bytes)` at monotonic-clock reading `now`.
`num_bytes : ℕ` (the `num_bytes < 0` `ValueError` branch is unreachable).
Returns the Python return value `(allowed, wait_time)` together with the
updated state. -/
def TokenBucket.consume (b : TokenBucket) (num_bytes : ℕ) (now : ℚ) :
    (Bool × ℚ) × TokenBucket :=
  let elapsed := now - b.last_update
  let tokens1 := min b.bucket_size (b.tokens + elapsed * b.rate)
  if (num_bytes : ℚ) ≤ tokens1 then
    ((true, 0),
      { b with
        tokens := tokens1 - (num_bytes : ℚ)
        last_update := now
        packet_count := b.packet_count + 1
        total_bytes := b.total_bytes + num_bytes })
  else
    ((false, ((num_bytes : ℚ) - tokens1) / b.rate),
      { b with
        tokens := tokens1
        last_update := now
        packet_count := b.packet_count + 1
        total_bytes := b.total_bytes + num_bytes
        throttled_count := b.throttled_count + 1
        throttled_bytes := b.throttled_bytes + num_bytes })

/-- Run a sequence of `consume` calls; each element is
`(monotonic clock reading, num_bytes)`. -/
def TokenBucket.runCalls (b : TokenBucket) : List (ℚ × ℕ) → TokenBucket
  | [] => b
  | (t, n) :: rest => ((b.consume n t).2).runCalls rest

/-- Total bytes admitted (calls returning `allowed = true`) over a sequence
of `consume` calls. -/
def TokenBucket.admitted (b : TokenBucket) : List (ℚ × ℕ) → ℕ
  | [] => 0
  | (t, n) :: rest =>
      (if (b.consume n t).1.1 then n else 0) + ((b.consume n t).2).admitted rest

/-- The clock reading of the last call of the list (default `t`). -/
def lastTime (t : ℚ) : List (ℚ × ℕ) → ℚ
  | [] => t
  | (t1, _) :: rest => lastTime t1 rest

/-- The call times are monotonically nondecreasing, starting at or after `t`
(the monotonic-clock hypothesis). -/
def callsMono : ℚ → List (ℚ × ℕ) → Prop
  | _, [] => True
  | t, (t1, _) :: rest => t ≤ t1 ∧ callsMono t1 rest

/-- Concrete bucket used to instantiate the C1 admission-bound theorem:
the state produced by `TokenBucket.init 1 1 0`. -/
def bucketOneOne : TokenBucket :=
  { rate := 1, bucket_size := 1, tokens := 1, last_update := 0
    total_bytes := 0, throttled_bytes := 0, packet_count := 0
    throttled_count := 0 }

/-- Concrete bucket of the spec scenario "Burst exhaustion": the state
produced by `TokenBucket.init 1048576 10485760 0` (R = 1 MiB/s, C = 10 MiB). -/
def bucketBurst : TokenBucket :=
  { rate := 1048576, bucket_size := 10485760, tokens := 10485760
    last_update := 0, total_bytes := 0, throttled_bytes := 0
    packet_count := 0, throttled_count := 0 }

/-! ## IP-literal validation (src/ipc.py `PacketData._is_valid_ip`,
src/models.py `sanitize_ip`) -/

/-- One character of the regex class `[\d.:a-fA-F]` (`\d` modelled as the
ASCII digits). -/
def ipCharOk (c : Char) : Bool :=
  c.isDigit || c = '.' || c = ':' || ('a' ≤ c && c ≤ 'f') ||
    ('A' ≤ c && c ≤ 'F')

/-- Python `re.match(r'^[\d.:a-fA-F]+$', s)`: one or more class characters;
`$` in Python also matches just before a single trailing newline. -/
def matchesIpPattern (cs : List Char) : Bool :=
  (!cs.isEmpty && cs.all ipCharOk)
    || (match cs.getLast? with
        | some c =>
            decide (c = '\n') && (!cs.dropLast.isEmpty &&
              cs.dropLast.all ipCharOk)
        | none => false)

/-- `PacketData._is_valid_ip` (ipc.py): rejects empty or over-45-character
strings, then applies the regex. -/
def isValidIp (ip : String) : Bool :=
  if ip = "" || 45 < ip.length then false
  else matchesIpPattern ip.data

/-- `sanitize_ip` (models.py): non-matching strings become "invalid";
matching strings are truncated to their first 45 characters (`ip[:45]`). -/
def sanitize_ip (ip : String) : String :=
  if !matchesIpPattern ip.data then "invalid"
  else String.mk (ip.data.take 45)

/-! ## IPC commands and the interceptor service (src/ipc.py, src/service.py) -/

/-- `Command` (ipc.py): tag, optional target IP, free-form parameters and a
wall-clock timestamp. -/
structure Command where
  type : String
  target_ip : Option String
  params : List (String × String)
  timestamp : ℚ
  deriving DecidableEq, Repr

/-- The `CommandType` whitelist. -/
def commandTypes : List String :=
  ["throttle_ip", "unthrottle_ip", "get_stats", "shutdown"]

/-- `Command.validate` (ipc.py): whitelist check on the tag, then target-IP
validation; a `None` or empty target is skipped (Python truthiness). -/
def Command.validate (c : Command) : Bool :=
  decide (c.type ∈ commandTypes) &&
    (match c.target_ip with
     | none => true
     | some t => if t = "" then true else isValidIp t)

/-- State of `MinimalService` (service.py): the throttled-IP set, the token
bucket and the statistics counters. -/
structure ServiceState where
  throttled_ips : Finset String
  bucket : TokenBucket
  total_packets : ℕ
  total_bytes : ℕ
  throttled_count : ℕ
  running : Bool
  deriving DecidableEq

/-- `MinimalService._handle_command`: dispatch on the (already validated)
tag; an unknown tag raises `ValueError` in `CommandType(...)` and returns;
an absent or empty `target_ip` is a no-op (Python truthiness). -/
def handleCommand (cmd : Command) (s : ServiceState) : ServiceState :=
  if cmd.type ∉ commandTypes then s
  else if cmd.type = "throttle_ip" then
    match cmd.target_ip with
    | some t => if t ≠ "" then
        { s with throttled_ips := insert t s.throttled_ips } else s
    | none => s
  else if cmd.type = "unthrottle_ip" then
    match cmd.target_ip with
    | some t => if t ≠ "" then
        { s with throttled_ips := s.throttled_ips.erase t } else s
    | none => s
  else if cmd.type = "shutdown" then { s with running := false }
  else s

/-- `IPCServer._command_listener` handing a decoded command to the service:
the command is validated first and dropped when invalid. -/
def commandStep (cmd : Command) (s : ServiceState) : ServiceState :=
  if cmd.validate then handleCommand cmd s else s

/-- One iteration of the `MinimalService.run` hot path for a received packet
`(src_ip, size)` at monotonic-clock reading `now`. Returns `should_drop`
(true means the packet is not reinjected and not forwarded to the worker)
and the updated state. -/
def processPacket (s : ServiceState) (src_ip : String) (size : ℕ) (now : ℚ) :
    Bool × ServiceState :=
  let ip_throttled := decide (src_ip ∈ s.throttled_ips)
  let res := s.bucket.consume size now
  let allowed := res.1.1
  let should_drop := ip_throttled || !allowed
  (should_drop,
    { s with
      bucket := res.2
      total_packets := s.total_packets + 1
      total_bytes := s.total_bytes + size
      throttled_count :=
        if should_drop then s.throttled_count + 1 else s.throttled_count })

/-- Iterate the hot path over a packet sequence. -/
def runPackets (s : ServiceState) : List (String × ℕ × ℚ) → ServiceState
  | [] => s
  | (ip, sz, t) :: rest => runPackets (processPacket s ip sz t).2 rest

/-- `IPCClient.throttle_ip`: the command the analyzer sends. -/
def mkThrottleCmd (ip : String) (ts : ℚ) : Command :=
  { type := "throttle_ip", target_ip := some ip, params := [], timestamp := ts }

/-- The malicious command of the spec's "IPC rejection" scenario. -/
def execCmd : Command :=
  { type := "exec", target_ip := some "1.2.3.4", params := [], timestamp := 0 }

/-- `MinimalService.__init__` under the default configuration
(`max_bandwidth_mbps = 50`, `burst_size_mb = 10`). -/
def initialService (now : ℚ) : ServiceState :=
  { throttled_ips := ∅
    bucket :=
      { rate := 50 * 1024 * 1024, bucket_size := 10 * 1024 * 1024
        tokens := 10 * 1024 * 1024, last_update := now
        total_bytes := 0, throttled_bytes := 0, packet_count := 0
        throttled_count := 0 }
    total_packets := 0, total_bytes := 0, throttled_count := 0
    running := false }

/-! ## IP profiles (src/models.py `IPProfile`) -/

/-- `IPProfile` (models.py): the per-IP record held by the intelligence
cache. String timestamps and WHOIS fields are kept verbatim; numeric fields
use `ℕ`/`ℚ`. -/
structure IPProfile where
  ip : String
  first_seen : String
  last_seen : String
  country : String
  asn : String
  asn_description : String
  network_name : String
  network_cidr : String
  abuse_contact : String
  total_bytes : ℕ
  total_packets : ℕ
  throttled_packets : ℕ
  max_speed_mbps : ℚ
  threat_score : ℕ
  threat_reasons : List String
  last_access : ℚ
  deriving DecidableEq, Repr

/-! ## Threat scorer (src/intel/scoring.py, src/config.py) -/

/-- The scoring-relevant fields of `NetShieldConfig`. The Python
`frozenset`s are modelled as lists; `frozenset` iteration order is
arbitrary, which only affects which keyword a "Suspicious ASN" reason
names, never whether the rule fires. -/
structure ScoringConfig where
  high_risk_countries : List String
  suspicious_asn_keywords : List String
  deriving DecidableEq, Repr

/-- Defaults from config.py: `DEFAULT_HIGH_RISK_COUNTRIES = {"KP"}` and
`DEFAULT_SUSPICIOUS_ASN_KEYWORDS` (one fixed enumeration order). -/
def defaultScoringConfig : ScoringConfig :=
  { high_risk_countries := ["KP"]
    suspicious_asn_keywords :=
      ["hosting", "vps", "cloud", "proxy", "vpn", "bulletproof"] }

/-- Python `pat in s` for strings: `pat` occurs contiguously in `s`. -/
def containsSub : List Char → List Char → Bool
  | [], pat => pat.isPrefixOf []
  | s@(_ :: rest), pat => pat.isPrefixOf s || containsSub rest pat

/-- Python `str.lower()` (ASCII model, matching the ASCII ASN keywords). -/
def pyToLower (s : String) : String := String.mk (s.data.map Char.toLower)

/-- `ThreatScorer.calculate` (scoring.py): sequential accumulation of the
five rules, final score capped at 100. The numeric values interpolated into
the speed/ratio reason strings are abstracted; the country and keyword
reasons carry the observed value as in the source. -/
def ThreatScorer.calculate (cfg : ScoringConfig) (profile : IPProfile) :
    ℕ × List String :=
  let p0 : ℕ × List String := (0, [])
  let p1 := if profile.country ∈ cfg.high_risk_countries then
      (p0.1 + 30, p0.2 ++ ["High-risk country: " ++ profile.country])
    else p0
  let p2 := if (100 : ℚ) < profile.max_speed_mbps then
      (p1.1 + 40, p1.2 ++ ["Extreme speed"])
    else if (50 : ℚ) < profile.max_speed_mbps then
      (p1.1 + 20, p1.2 ++ ["High speed"])
    else p1
  let p3 := if 10 < profile.total_packets then
      (if (1 : ℚ) / 2 <
          (profile.throttled_packets : ℚ) / (profile.total_packets : ℚ) then
        (p2.1 + 20, p2.2 ++ ["High throttle ratio"])
      else p2)
    else p2
  let p4 := match cfg.suspicious_asn_keywords.find?
      (fun k => containsSub (pyToLower profile.asn_description).data k.data) with
    | some k => (p3.1 + 15, p3.2 ++ ["Suspicious ASN keyword: " ++ k])
    | none => p3
  (min p4.1 100, p4.2)

/-- Rule 1 condition: high-risk country. -/
def countryRuleFired (cfg : ScoringConfig) (p : IPProfile) : Bool :=
  decide (p.country ∈ cfg.high_risk_countries)

/-- Rule 2 condition: extreme speed (> 100 MB/s). -/
def extremeSpeedFired (p : IPProfile) : Bool :=
  decide ((100 : ℚ) < p.max_speed_mbps)

/-- Rule 3 condition: high speed (50 < speed ≤ 100), exclusive with rule 2. -/
def highSpeedFired (p : IPProfile) : Bool :=
  !extremeSpeedFired p && decide ((50 : ℚ) < p.max_speed_mbps)

/-- Rule 4 condition: throttle ratio > 1/2 over more than 10 packets. -/
def throttleRatioFired (p : IPProfile) : Bool :=
  decide (10 < p.total_packets) &&
    decide ((1 : ℚ) / 2 <
      (p.throttled_packets : ℚ) / (p.total_packets : ℚ))

/-- Rule 5 condition: some configured keyword occurs in the lower-cased ASN
description. -/
def asnRuleFired (cfg : ScoringConfig) (p : IPProfile) : Bool :=
  (cfg.suspicious_asn_keywords.find?
    (fun k => containsSub (pyToLower p.asn_description).data k.data)).isSome

/-- Sum of the contributions of the rules that fire. -/
def contribSum (cfg : ScoringConfig) (p : IPProfile) : ℕ :=
  (if countryRuleFired cfg p then 30 else 0)
    + (if extremeSpeedFired p then 40 else 0)
    + (if highSpeedFired p then 20 else 0)
    + (if throttleRatioFired p then 20 else 0)
    + (if asnRuleFired cfg p then 15 else 0)

/-- Number of rules that fire. -/
def firedCount (cfg : ScoringConfig) (p : IPProfile) : ℕ :=
  (if countryRuleFired cfg p then 1 else 0)
    + (if extremeSpeedFired p then 1 else 0)
    + (if highSpeedFired p then 1 else 0)
    + (if throttleRatioFired p then 1 else 0)
    + (if asnRuleFired cfg p then 1 else 0)

/-- The profile of the spec's "Scorer combination" scenario. -/
def kpProfile : IPProfile :=
  { ip := "203.0.113.7", first_seen := "t0", last_seen := "t1"
    country := "KP", asn := "Unknown"
    asn_description := "Bulletproof Hosting"
    network_name := "Unknown", network_cidr := "Unknown"
    abuse_contact := "Unknown"
    total_bytes := 0, total_packets := 100, throttled_packets := 60
    max_speed_mbps := 150, threat_score := 0, threat_reasons := []
    last_access := 0 }

/-! ## Bounded LRU cache (src/intel/threat_intel.py `LRUCache`)

The `OrderedDict` is modelled as an association list whose last element is
the most recently accessed entry. -/

/-- The `while len(self._cache) >= self.max_size: self._cache.popitem(last=False)`
loop of `LRUCache.put`: pop from the least-recent end until below capacity.
(For `max_size = 0` the Python loop would raise on an empty dict; the model
returns `[]` there, and all theorems assume `1 ≤ max_size`.) -/
def evictLRU (max_size : ℕ) : List (String × IPProfile) → List (String × IPProfile)
  | [] => []
  | e :: rest =>
      if max_size ≤ (e :: rest).length then evictLRU max_size rest
      else e :: rest

/-- `LRUCache.get` at monotonic time `now`: a TTL-expired entry is purged
and `None` returned; otherwise the entry is moved to the most-recent end,
its `last_access` refreshed, and returned. -/
def lruGet (ttl_seconds now : ℚ) (key : String)
    (c : List (String × IPProfile)) :
    Option IPProfile × List (String × IPProfile) :=
  match c.find? (fun e => decide (e.1 = key)) with
  | none => (none, c)
  | some e =>
      if ttl_seconds < now - e.2.last_access then
        (none, c.filter (fun x => decide (¬ x.1 = key)))
      else
        let p := { e.2 with last_access := now }
        (some p, c.filter (fun x => decide (¬ x.1 = key)) ++ [(key, p)])

/-- `LRUCache.put` at monotonic time `now`: stamp `last_access`, then either
move an existing key to the most-recent end with the new value, or evict
down below capacity and append. -/
def lruPut (max_size : ℕ) (now : ℚ) (key : String) (value : IPProfile)
    (c : List (String × IPProfile)) : List (String × IPProfile) :=
  let v := { value with last_access := now }
  if c.any (fun e => decide (e.1 = key)) then
    c.filter (fun x => decide (¬ x.1 = key)) ++ [(key, v)]
  else
    evictLRU max_size c ++ [(key, v)]

/-- One cache operation of a `put`/`get` history. -/
inductive CacheOp where
  | putOp (key : String) (value : IPProfile) (now : ℚ)
  | getOp (key : String) (now : ℚ)

/-- Apply one operation to the cache state. -/
def applyOp (max_size : ℕ) (ttl : ℚ) (c : List (String × IPProfile)) :
    CacheOp → List (String × IPProfile)
  | .putOp k v t => lruPut max_size t k v c
  | .getOp k t => (lruGet ttl t k c).2

/-- Run a history of operations. -/
def runOps (max_size : ℕ) (ttl : ℚ) (c : List (String × IPProfile)) :
    List CacheOp → List (String × IPProfile)
  | [] => c
  | op :: rest => runOps max_size ttl (applyOp max_size ttl c op) rest

/-! ## Analyzer quick threat check (src/worker.py `Worker._quick_threat_check`) -/

/-- The attribute names assigned by `ThreatIntel.__init__`
(threat_intel.py): the cache lives in `self.cache`; there is no
`profiles` attribute. -/
def threatIntelAttrNames : List String :=
  ["config", "scorer", "cache", "lookup_queue", "rate_limiter", "running",
   "worker_thread"]

/-- Value of `hasattr(self.intel, 'profiles')` for a `ThreatIntel` intel
object. -/
def threatIntelHasProfilesAttr : Bool :=
  decide ("profiles" ∈ threatIntelAttrNames)

/-- `Worker._quick_threat_check` with `HIGH_RATE_THRESHOLD_MBPS = 50`:
rate contribution, previously-throttled contribution, the cached-profile
term guarded by `hasattr(self.intel, 'profiles')` (with
`cachedProfileScore` the `threat_score` of the cached profile for the
source IP, when the intel object is present and a profile is cached), the
ML contribution, and the final cap at 100. -/
def quickThreatCheck (rate_mbps : ℚ) (throttle_count : ℕ)
    (intelPresent : Bool) (cachedProfileScore : Option ℕ)
    (mlContrib : ℕ) : ℕ :=
  let s1 : ℕ := if (50 : ℚ) < rate_mbps then 40
    else if (50 : ℚ) / 2 < rate_mbps then 20 else 0
  let s2 := s1 + (if 0 < throttle_count then 20 else 0)
  let s3 := s2 +
    (if intelPresent && threatIntelHasProfilesAttr then
      (match cachedProfileScore with
       | some v => v
       | none => 0)
    else 0)
  let s4 := s3 + mlContrib
  min 100 s4

/-! ## Event logger (src/loggers/event_logger.py) -/

/-- JSON-ish values appearing in logged records (`profile.to_dict()`
emits strings, numbers and the `threat_reasons` string list). -/
inductive JVal where
  | jstr : String → JVal
  | jnum : ℚ → JVal
  | jstrlist : List String → JVal
  deriving DecidableEq, Repr

/-- Python truthiness of a JSON value (`if not sig`). -/
def jvalTruthy : JVal → Bool
  | .jstr s => !(s == "")
  | .jnum q => decide (¬ q = 0)
  | .jstrlist l => !l.isEmpty

/-- A logged record: an association list of fields in insertion order. -/
def lookupKey (k : String) (r : List (String × JVal)) : Option (String × JVal) :=
  r.find? (fun e => decide (e.1 = k))

/-- `entry.pop('_sig', None)`-style removal of a key. -/
def removeKey (k : String) (r : List (String × JVal)) : List (String × JVal) :=
  r.filter (fun e => decide (¬ e.1 = k))

/-- Code-point lexicographic order on strings (Python `sort_keys=True`). -/
def charListLe : List Char → List Char → Bool
  | [], _ => true
  | _ :: _, [] => false
  | a :: as_, b :: bs =>
      if a.val < b.val then true
      else if b.val < a.val then false
      else charListLe as_ bs

/-- Stable insertion sort of the fields by key. -/
def insertSorted (e : String × JVal) :
    List (String × JVal) → List (String × JVal)
  | [] => [e]
  | f :: rest =>
      if charListLe e.1.data f.1.data then e :: f :: rest
      else f :: insertSorted e rest

/-- Sort a record's fields by key. -/
def sortByKey : List (String × JVal) → List (String × JVal)
  | [] => []
  | e :: rest => insertSorted e (sortByKey rest)

/-- Serialize one value (string escaping abstracted away: the serialization
is only fed to the HMAC function, identically at sign and verify time). -/
def dumpVal : JVal → String
  | .jstr s => "\x22" ++ s ++ "\x22"
  | .jnum q => toString q
  | .jstrlist l => "[" ++ String.intercalate ", "
      (l.map fun s => "\x22" ++ s ++ "\x22") ++ "]"

/-- `json.dumps(entry, sort_keys=True)`. -/
def dumpsSorted (r : List (String × JVal)) : String :=
  "\x7b" ++ String.intercalate ", "
    ((sortByKey r).map fun e => "\x22" ++ e.1 ++ "\x22: " ++ dumpVal e.2)
    ++ "\x7d"

/-- Python string slicing `s[:n]`: the first `n` characters. -/
def strTake (n : ℕ) (s : String) : String := String.mk (s.data.take n)

/-- State of `EventLogger` relevant to integrity: the flag and the secret
captured from `NETSHIELD_LOG_SECRET` (`None` when unset or empty). -/
structure EventLogger where
  enable_integrity : Bool
  integrity_secret : Option String
  deriving DecidableEq, Repr

/-- `EventLogger._compute_hmac`, parameterized by the HMAC-SHA-256 hex
digest function `hmacHex key data` (treated as an opaque keyed hash):
empty result without a (truthy) secret, otherwise the first 16 hex
characters of the digest. -/
def computeHmac (hmacHex : String → String → String) (lg : EventLogger)
    (data : String) : String :=
  match lg.integrity_secret with
  | none => ""
  | some key => if key = "" then "" else strTake 16 (hmacHex key data)

/-- The signing step of `EventLogger.save_watchlist` for one entry
(`entry` is `profile.to_dict()`, which never contains a `_sig` field):
in integrity mode, append `_sig` computed over the sorted-key dump of the
entry. -/
def signWatchlistEntry (hmacHex : String → String → String)
    (lg : EventLogger) (entry : List (String × JVal)) :
    List (String × JVal) :=
  if lg.enable_integrity then
    entry ++ [("_sig", JVal.jstr (computeHmac hmacHex lg (dumpsSorted entry)))]
  else entry

/-- The record list written by `EventLogger.save_watchlist`. -/
def saveWatchlist (hmacHex : String → String → String) (lg : EventLogger)
    (entries : List (List (String × JVal))) : List (List (String × JVal)) :=
  entries.map (signWatchlistEntry hmacHex lg)

/-- The per-entry check inside `EventLogger.verify_integrity`: pop `_sig`
(falsy or missing signature fails), recompute over the remaining record
with keys sorted, and compare. -/
def verifyEntry (hmacHex : String → String → String) (lg : EventLogger)
    (entry : List (String × JVal)) : Bool :=
  match lookupKey "_sig" entry with
  | none => false
  | some e =>
      if !jvalTruthy e.2 then false
      else
        let rest := removeKey "_sig" entry
        let expected := computeHmac hmacHex lg (dumpsSorted rest)
        decide (e.2 = JVal.jstr expected)

/-- `EventLogger.verify_integrity` on a file with the given suffix whose
parsed contents are `data`: `False` without a (truthy) secret; entry checks
only for `.json` files; every other suffix returns `True` without looking
at the contents. -/
def verifyIntegrity (hmacHex : String → String → String) (lg : EventLogger)
    (suffix : String) (data : List (List (String × JVal))) : Bool :=
  match lg.integrity_secret with
  | none => false
  | some key =>
      if key = "" then false
      else if suffix = ".json" then data.all (verifyEntry hmacHex lg)
      else true

/-- Python `str.split(sep)` for a single separator character. -/
def splitOnChar (sep : Char) : List Char → List (List Char)
  | [] => [[]]
  | c :: rest =>
      match splitOnChar sep rest with
      | [] => if c = sep then [[], [c]] else [[c]]
      | h :: t => if c = sep then [] :: h :: t else (c :: h) :: t

/-- `pathlib.Path(name).suffix` for the plain audit-log file names used
here (dot-separated, no directories). -/
def fileSuffix (name : String) : String :=
  let parts := splitOnChar '.' name.data
  if parts.length ≤ 1 then "" else "." ++ String.mk parts.getLast!

/-- `EVENTS_LOG_FILENAME` (config.py). -/
def EVENTS_LOG_FILENAME : String := "events.jsonl"

/-- `TRAFFIC_LOG_FILENAME` (config.py). -/
def TRAFFIC_LOG_FILENAME : String := "traffic.csv"

/-- `WATCHLIST_LOG_FILENAME` (config.py). -/
def WATCHLIST_LOG_FILENAME : String := "watchlist.json"

/-- A concrete stand-in keyed hash used only to instantiate the
HMAC-parametric theorems in witnesses. -/
def witnessHmacHex (key data : String) : String :=
  "h" ++ key ++ "/" ++ data

end NetShield

namespace NetShield

/-! ## Token bucket lemmas -/

/-- The refilled (capped) token count computed at the head of `consume`. -/
def TokenBucket.refill (b : TokenBucket) (now : ℚ) : ℚ :=
  min b.bucket_size (b.tokens + (now - b.last_update) * b.rate)

theorem consume_allowed (b : TokenBucket) (n : ℕ) (t : ℚ)
    (h : (n : ℚ) ≤ b.refill t) :
    b.consume n t =
      ((true, 0),
        { b with
          tokens := b.refill t - (n : ℚ)
          last_update := t
          packet_count := b.packet_count + 1
          total_bytes := b.total_bytes + n }) := by
  simp only [TokenBucket.consume, TokenBucket.refill] at h ⊢
  rw [if_pos h]

theorem consume_denied (b : TokenBucket) (n : ℕ) (t : ℚ)
    (h : ¬ (n : ℚ) ≤ b.refill t) :
    b.consume n t =
      ((false, ((n : ℚ) - b.refill t) / b.rate),
        { b with
          tokens := b.refill t
          last_update := t
          packet_count := b.packet_count + 1
          total_bytes := b.total_bytes + n
          throttled_count := b.throttled_count + 1
          throttled_bytes := b.throttled_bytes + n }) := by
  simp only [TokenBucket.consume, TokenBucket.refill] at h ⊢
  rw [if_neg h]

theorem consume_rate (b : TokenBucket) (n : ℕ) (t : ℚ) :
    ((b.consume n t).2).rate = b.rate := by
  by_cases h : (n : ℚ) ≤ b.refill t
  · rw [consume_allowed b n t h]
  · rw [consume_denied b n t h]

theorem consume_bucket_size (b : TokenBucket) (n : ℕ) (t : ℚ) :
    ((b.consume n t).2).bucket_size = b.bucket_size := by
  by_cases h : (n : ℚ) ≤ b.refill t
  · rw [consume_allowed b n t h]
  · rw [consume_denied b n t h]

theorem consume_last_update (b : TokenBucket) (n : ℕ) (t : ℚ) :
    ((b.consume n t).2).last_update = t := by
  by_cases h : (n : ℚ) ≤ b.refill t
  · rw [consume_allowed b n t h]
  · rw [consume_denied b n t h]

/-- Per-call token balance: admitted bytes plus remaining tokens equal the
refilled (capped) token count. -/
theorem consume_balance (b : TokenBucket) (n : ℕ) (t : ℚ) :
    (if (b.consume n t).1.1 then (n : ℚ) else 0) + ((b.consume n t).2).tokens
      = b.refill t := by
  by_cases h : (n : ℚ) ≤ b.refill t
  · rw [consume_allowed b n t h]; simp
  · rw [consume_denied b n t h]; simp

/-- One `consume` call preserves `0 ≤ tokens ≤ bucket_size` when the clock
is monotone. -/
theorem consume_inv (b : TokenBucket) (n : ℕ) (t : ℚ)
    (h0 : 0 ≤ b.tokens) (hC : 0 ≤ b.bucket_size) (hR : 0 ≤ b.rate)
    (ht : b.last_update ≤ t) :
    0 ≤ ((b.consume n t).2).tokens ∧
      ((b.consume n t).2).tokens ≤ b.bucket_size := by
  have helapsed : 0 ≤ (t - b.last_update) * b.rate :=
    mul_nonneg (by linarith) hR
  have h1 : 0 ≤ b.refill t := le_min hC (by linarith)
  have h2 : b.refill t ≤ b.bucket_size := min_le_left _ _
  have hn : (0 : ℚ) ≤ (n : ℚ) := Nat.cast_nonneg n
  by_cases h : (n : ℚ) ≤ b.refill t
  · rw [consume_allowed b n t h]
    constructor
    · simp only; linarith
    · simp only; linarith
  · rw [consume_denied b n t h]
    exact ⟨h1, h2⟩

theorem runCalls_rate (b : TokenBucket) (calls : List (ℚ × ℕ)) :
    (b.runCalls calls).rate = b.rate := by
  induction calls generalizing b with
  | nil => rfl
  | cons c rest ih =>
      obtain ⟨t, n⟩ := c
      simpa [TokenBucket.runCalls, consume_rate] using ih ((b.consume n t).2)

theorem runCalls_bucket_size (b : TokenBucket) (calls : List (ℚ × ℕ)) :
    (b.runCalls calls).bucket_size = b.bucket_size := by
  induction calls generalizing b with
  | nil => rfl
  | cons c rest ih =>
      obtain ⟨t, n⟩ := c
      simpa [TokenBucket.runCalls, consume_bucket_size]
        using ih ((b.consume n t).2)

theorem runCalls_last_update (b : TokenBucket) (calls : List (ℚ × ℕ)) :
    (b.runCalls calls).last_update = lastTime b.last_update calls := by
  induction calls generalizing b with
  | nil => rfl
  | cons c rest ih =>
      obtain ⟨t, n⟩ := c
      have := ih ((b.consume n t).2)
      simpa [TokenBucket.runCalls, lastTime, consume_last_update] using this

/-- Running monotone calls preserves the token invariant. -/
theorem runCalls_inv (calls : List (ℚ × ℕ)) (b : TokenBucket)
    (h0 : 0 ≤ b.tokens) (hCt : b.tokens ≤ b.bucket_size)
    (hC : 0 ≤ b.bucket_size) (hR : 0 ≤ b.rate)
    (hm : callsMono b.last_update calls) :
    0 ≤ (b.runCalls calls).tokens ∧
      (b.runCalls calls).tokens ≤ (b.runCalls calls).bucket_size := by
  induction calls generalizing b with
  | nil => exact ⟨h0, hCt⟩
  | cons c rest ih =>
      obtain ⟨t, n⟩ := c
      obtain ⟨ht, hrest⟩ := hm
      have hinv := consume_inv b n t h0 hC hR ht
      have hlu : ((b.consume n t).2).last_update = t := consume_last_update b n t
      have hrate : ((b.consume n t).2).rate = b.rate := consume_rate b n t
      have hsize : ((b.consume n t).2).bucket_size = b.bucket_size :=
        consume_bucket_size b n t
      exact ih ((b.consume n t).2) hinv.1 (by rw [hsize]; exact hinv.2)
        (by rw [hsize]; exact hC) (by rw [hrate]; exact hR)
        (by rw [hlu]; exact hrest)

/-- Key admission bound: over a nonempty monotone call sequence, the admitted
bytes plus the final token count are bounded by the refill available at the
first call plus `rate` times the covered time span. -/
theorem admitted_key (rest : List (ℚ × ℕ)) (t1 : ℚ) (n1 : ℕ) (b : TokenBucket)
    (h0 : 0 ≤ b.tokens) (hC : 0 ≤ b.bucket_size) (hR : 0 ≤ b.rate)
    (hm : callsMono b.last_update ((t1, n1) :: rest)) :
    (b.admitted ((t1, n1) :: rest) : ℚ) + (b.runCalls ((t1, n1) :: rest)).tokens
      ≤ b.refill t1 + b.rate * (lastTime t1 rest - t1) := by
  induction rest generalizing b t1 n1 with
  | nil =>
      have hbal := consume_balance b n1 t1
      simp only [TokenBucket.admitted, TokenBucket.runCalls, lastTime]
      rcases h : (b.consume n1 t1).1.1 with _ | _ <;>
        · simp only [h, if_true, if_false, Bool.false_eq_true] at hbal ⊢
          push_cast
          linarith [hbal]
  | cons c rest' ih =>
      obtain ⟨t2, n2⟩ := c
      obtain ⟨ht1, ht2, hrest⟩ := hm
      set b1 := (b.consume n1 t1).2 with hb1
      have hinv := consume_inv b n1 t1 h0 hC hR ht1
      have hlu : b1.last_update = t1 := consume_last_update b n1 t1
      have hrate : b1.rate = b.rate := consume_rate b n1 t1
      have hsize : b1.bucket_size = b.bucket_size := consume_bucket_size b n1 t1
      have hmono1 : callsMono b1.last_update ((t2, n2) :: rest') := by
        rw [hlu]; exact ⟨ht2, hrest⟩
      have hih := ih t2 n2 b1 hinv.1 (by rw [hsize]; exact hC)
        (by rw [hrate]; exact hR) hmono1
      have hdrop : b1.refill t2 ≤ b1.tokens + (t2 - t1) * b.rate := by
        unfold TokenBucket.refill
        rw [hlu, hrate]
        exact min_le_right _ _
      have hbal := consume_balance b n1 t1
      have hadm : (b.admitted ((t1, n1) :: (t2, n2) :: rest') : ℚ)
          = (if (b.consume n1 t1).1.1 then (n1 : ℚ) else 0)
            + (b1.admitted ((t2, n2) :: rest') : ℚ) := by
        simp only [TokenBucket.admitted]
        rcases h : (b.consume n1 t1).1.1 with _ | _ <;>
          simp [h, hb1, Nat.cast_add]
      have hrun : b.runCalls ((t1, n1) :: (t2, n2) :: rest')
          = b1.runCalls ((t2, n2) :: rest') := rfl
      have hlast : lastTime t1 ((t2, n2) :: rest') = lastTime t2 rest' := rfl
      rw [hadm, hrun, hlast]
      rw [hrate] at hih
      nlinarith [hih, hdrop, hbal]

theorem callsMono_append_left (t : ℚ) (l1 l2 : List (ℚ × ℕ))
    (h : callsMono t (l1 ++ l2)) : callsMono t l1 := by
  induction l1 generalizing t with
  | nil => trivial
  | cons c rest ih =>
      obtain ⟨t1, n1⟩ := c
      exact ⟨h.1, ih t1 h.2⟩

theorem callsMono_append_right (t : ℚ) (l1 l2 : List (ℚ × ℕ))
    (h : callsMono t (l1 ++ l2)) : callsMono (lastTime t l1) l2 := by
  induction l1 generalizing t with
  | nil => exact h
  | cons c rest ih =>
      obtain ⟨t1, n1⟩ := c
      exact ih t1 h.2

/-- Unfolding of a successful `TokenBucket.init`. -/
theorem init_eq (R C t0 : ℚ) (b0 : TokenBucket)
    (h : TokenBucket.init R C t0 = some b0) :
    0 < R ∧ 0 < C ∧ b0 =
      { rate := R, bucket_size := C, tokens := C, last_update := t0
        total_bytes := 0, throttled_bytes := 0, packet_count := 0
        throttled_count := 0 } := by
  unfold TokenBucket.init at h
  split at h
  · exact absurd h (by simp)
  · split at h
    · exact absurd h (by simp)
    · rename_i h1 h2
      refine ⟨by linarith [not_le.mp h1], by linarith [not_le.mp h2], ?_⟩
      exact (Option.some_inj.mp h).symm

/-- Claim C1: for every rate `R > 0` and capacity `C > 0` and every monotone
sequence of `consume` calls, (a) the stored token count always satisfies
`0 ≤ tokens ≤ C`, and (b) the bytes admitted over any contiguous stretch of
calls whose clock readings span at most `Δt` never exceed `C + R·Δt`. -/
theorem tokenBucket_admission_bound
    (R C t0 Δt : ℚ) (b0 : TokenBucket)
    (hinit : TokenBucket.init R C t0 = some b0)
    (calls : List (ℚ × ℕ)) (hmono : callsMono t0 calls) :
    (∀ l1 l2 : List (ℚ × ℕ), calls = l1 ++ l2 →
        0 ≤ (b0.runCalls l1).tokens ∧ (b0.runCalls l1).tokens ≤ C)
    ∧ (∀ (l1 : List (ℚ × ℕ)) (t1 : ℚ) (n1 : ℕ) (seg l3 : List (ℚ × ℕ)),
        calls = l1 ++ ((t1, n1) :: seg) ++ l3 →
        lastTime t1 seg - t1 ≤ Δt →
        ((b0.runCalls l1).admitted ((t1, n1) :: seg) : ℚ) ≤ C + R * Δt) := by
  obtain ⟨hR, hC, rfl⟩ := init_eq R C t0 b0 hinit
  set b0 : TokenBucket :=
    { rate := R, bucket_size := C, tokens := C, last_update := t0
      total_bytes := 0, throttled_bytes := 0, packet_count := 0
      throttled_count := 0 } with hb0
  have hb0fields : b0.rate = R ∧ b0.bucket_size = C ∧ b0.tokens = C ∧
      b0.last_update = t0 := ⟨rfl, rfl, rfl, rfl⟩
  constructor
  · intro l1 l2 hsplit
    have hm1 : callsMono b0.last_update l1 := by
      subst hsplit
      exact callsMono_append_left t0 l1 l2 hmono
    have := runCalls_inv l1 b0 (le_of_lt hC) (le_refl C) (le_of_lt hC)
      (le_of_lt hR) hm1
    rw [runCalls_bucket_size] at this
    exact this
  · intro l1 t1 n1 seg l3 hsplit hspan
    set b1 := b0.runCalls l1 with hb1
    have hm0 : callsMono t0 (l1 ++ (((t1, n1) :: seg) ++ l3)) := by
      rw [← List.append_assoc, ← hsplit]; exact hmono
    have hm1 : callsMono b0.last_update l1 :=
      callsMono_append_left t0 l1 _ hm0
    have hm2 : callsMono (lastTime t0 l1) (((t1, n1) :: seg) ++ l3) :=
      callsMono_append_right t0 l1 _ hm0
    have hm3 : callsMono b1.last_update ((t1, n1) :: seg) := by
      rw [hb1, runCalls_last_update]
      exact callsMono_append_left _ _ _ hm2
    have hinv1 := runCalls_inv l1 b0 (le_of_lt hC) (le_refl C) (le_of_lt hC)
      (le_of_lt hR) hm1
    have hrate1 : b1.rate = R := by rw [hb1, runCalls_rate]
    have hsize1 : b1.bucket_size = C := by rw [hb1, runCalls_bucket_size]
    have hkey := admitted_key seg t1 n1 b1 hinv1.1
      (by rw [hsize1]; exact le_of_lt hC) (by rw [hrate1]; exact le_of_lt hR)
      hm3
    have hend : 0 ≤ (b1.runCalls ((t1, n1) :: seg)).tokens := by
      have := runCalls_inv ((t1, n1) :: seg) b1 hinv1.1
        (by
          have h2 := hinv1.2
          rw [runCalls_bucket_size] at h2
          rw [hsize1]
          exact h2)
        (by rw [hsize1]; exact le_of_lt hC) (by rw [hrate1]; exact le_of_lt hR)
        hm3
      exact this.1
    have hrefill : b1.refill t1 ≤ C := by
      unfold TokenBucket.refill
      rw [hsize1]
      exact min_le_left _ _
    have hspanR : b1.rate * (lastTime t1 seg - t1) ≤ R * Δt := by
      rw [hrate1]
      exact mul_le_mul_of_nonneg_left hspan (le_of_lt hR)
    linarith [hkey, hend, hrefill, hspanR]

/-- Witness for C1: run `TokenBucket.init 1 1 0` and one `consume 1` call at
time `0`; the admitted bytes obey the bound with `Δt = 0`. -/
theorem tokenBucket_admission_bound_witness :
    ((bucketOneOne.runCalls []).admitted [((0 : ℚ), (1 : ℕ))] : ℚ)
      ≤ 1 + 1 * 0 := by
  have h := (tokenBucket_admission_bound 1 1 0 0 bucketOneOne
    (by decide) [((0 : ℚ), (1 : ℕ))] (by exact ⟨le_refl 0, trivial⟩)).2
    [] 0 1 [] [] rfl (by simp [lastTime])
  exact h

/-- Claim C3: a `consume(n)` call for which the refilled token count falls
short of `n` returns `(false, (n − tokens)/R)`, leaves the stored token
count at its refilled value, and bumps the throttled counters by `1` and
`n`; concretely, from a fresh `TokenBucket.init 1048576 10485760` bucket,
`consume(10485760)` then `consume(1)` back-to-back yield first `allowed`,
then throttled with `wait_time = 1/1048576 ≈ 9.5e-7` seconds and stats
`throttled = 1`, `throttled_bytes = 1`. -/
theorem tokenBucket_deny_path :
    (∀ (b : TokenBucket) (n : ℕ) (t : ℚ), b.refill t < (n : ℚ) →
      b.consume n t =
        ((false, ((n : ℚ) - b.refill t) / b.rate),
          { b with
            tokens := b.refill t
            last_update := t
            packet_count := b.packet_count + 1
            total_bytes := b.total_bytes + n
            throttled_count := b.throttled_count + 1
            throttled_bytes := b.throttled_bytes + n }))
    ∧ ∀ (b0 : TokenBucket) (t0 : ℚ),
        TokenBucket.init 1048576 10485760 t0 = some b0 →
        (b0.consume 10485760 t0).1.1 = true
        ∧ ((b0.consume 10485760 t0).2.consume 1 t0).1 = (false, 1 / 1048576)
        ∧ (95 : ℚ) / 100000000 ≤ ((b0.consume 10485760 t0).2.consume 1 t0).1.2
        ∧ ((b0.consume 10485760 t0).2.consume 1 t0).1.2 ≤ (96 : ℚ) / 100000000
        ∧ ((b0.consume 10485760 t0).2.consume 1 t0).2.throttled_count = 1
        ∧ ((b0.consume 10485760 t0).2.consume 1 t0).2.throttled_bytes = 1 := by
  constructor
  · intro b n t h
    exact consume_denied b n t (not_le.mpr h)
  · intro b0 t0 hinit
    obtain ⟨-, -, rfl⟩ := init_eq _ _ _ _ hinit
    have hrefill1 : TokenBucket.refill
        { rate := 1048576, bucket_size := 10485760, tokens := 10485760
          last_update := t0, total_bytes := 0, throttled_bytes := 0
          packet_count := 0, throttled_count := 0 } t0 = 10485760 := by
      unfold TokenBucket.refill
      simp
    have h1 : ((10485760 : ℕ) : ℚ) ≤ TokenBucket.refill
        { rate := 1048576, bucket_size := 10485760, tokens := 10485760
          last_update := t0, total_bytes := 0, throttled_bytes := 0
          packet_count := 0, throttled_count := 0 } t0 := by
      rw [hrefill1]; norm_num
    rw [consume_allowed _ _ _ h1]
    set b1 : TokenBucket :=
      { rate := 1048576, bucket_size := 10485760
        tokens := TokenBucket.refill
          { rate := 1048576, bucket_size := 10485760, tokens := 10485760
            last_update := t0, total_bytes := 0, throttled_bytes := 0
            packet_count := 0, throttled_count := 0 } t0 - ((10485760 : ℕ) : ℚ)
        last_update := t0, total_bytes := 0 + 10485760, throttled_bytes := 0
        packet_count := 0 + 1, throttled_count := 0 } with hb1def
    have htok1 : b1.tokens = 0 := by
      rw [hb1def]
      simp only
      rw [hrefill1]
      norm_num
    have hrefill2 : b1.refill t0 = 0 := by
      unfold TokenBucket.refill
      rw [hb1def]
      simp only
      rw [hrefill1]
      norm_num
    have h2 : ¬ ((1 : ℕ) : ℚ) ≤ b1.refill t0 := by
      rw [hrefill2]; norm_num
    rw [consume_denied _ _ _ h2]
    refine ⟨rfl, ?_, ?_, ?_, rfl, rfl⟩
    · rw [hrefill2]
      norm_num [hb1def]
    · rw [hrefill2]
      norm_num [hb1def]
    · rw [hrefill2]
      norm_num [hb1def]

/-- Witness for C3: instantiate the deny-path theorem on the concrete
`bucketBurst` state and read off the throttled counter. -/
theorem tokenBucket_deny_path_witness :
    ((bucketBurst.consume 10485760 0).2.consume 1 0).2.throttled_count = 1 :=
  (tokenBucket_deny_path.2 bucketBurst 0 (by decide)).2.2.2.2.1

/-! ## Interceptor lemmas (C2, C8) -/

theorem isValidIp_ne_empty (ip : String) (h : isValidIp ip = true) :
    ip ≠ "" := by
  intro he
  rw [he] at h
  simp [isValidIp] at h

theorem processPacket_throttled_ips (s : ServiceState) (ip : String)
    (sz : ℕ) (t : ℚ) :
    (processPacket s ip sz t).2.throttled_ips = s.throttled_ips := rfl

theorem runPackets_throttled_ips (pkts : List (String × ℕ × ℚ))
    (s : ServiceState) :
    (runPackets s pkts).throttled_ips = s.throttled_ips := by
  induction pkts generalizing s with
  | nil => rfl
  | cons p rest ih =>
      obtain ⟨ip, sz, t⟩ := p
      exact (ih (processPacket s ip sz t).2).trans rfl

/-- Claim C2: an applied `throttle_ip` command inserts the IP into the
interceptor's throttled set; while an IP is in that set, every packet from
it is dropped regardless of the token-bucket outcome, the throttled counter
increments by one, and the set survives any further packet processing; the
per-packet decision is exactly `drop = ip_blocked ∨ ¬bucket_ok`. -/
theorem interceptor_throttle_drop (s : ServiceState) (ip : String) (ts : ℚ)
    (hip : isValidIp ip = true) :
    ip ∈ (commandStep (mkThrottleCmd ip ts) s).throttled_ips
    ∧ (∀ s' : ServiceState, ip ∈ s'.throttled_ips → ∀ (sz : ℕ) (now : ℚ),
        (processPacket s' ip sz now).1 = true
        ∧ (processPacket s' ip sz now).2.throttled_count
            = s'.throttled_count + 1
        ∧ ∀ pkts : List (String × ℕ × ℚ),
            ip ∈ (runPackets (processPacket s' ip sz now).2 pkts).throttled_ips)
    ∧ ∀ (s'' : ServiceState) (src : String) (sz : ℕ) (now : ℚ),
        (processPacket s'' src sz now).1
          = (decide (src ∈ s''.throttled_ips)
              || !(s''.bucket.consume sz now).1.1) := by
  have hne : ip ≠ "" := isValidIp_ne_empty ip hip
  refine ⟨?_, ?_, ?_⟩
  · simp [commandStep, Command.validate, handleCommand, mkThrottleCmd,
      commandTypes, hip, hne]
  · intro s' hmem sz now
    refine ⟨?_, ?_, ?_⟩
    · simp [processPacket, hmem]
    · simp [processPacket, hmem]
    · intro pkts
      rw [runPackets_throttled_ips, processPacket_throttled_ips]
      exact hmem
  · intro s'' src sz now
    rfl

/-- Witness for C2: throttling `203.0.113.5` on the freshly initialized
service puts it in the throttled set. -/
theorem interceptor_throttle_drop_witness :
    "203.0.113.5" ∈
      (commandStep (mkThrottleCmd "203.0.113.5" 0)
        (initialService 0)).throttled_ips :=
  (interceptor_throttle_drop (initialService 0) "203.0.113.5" 0 (by decide)).1

/-- Claim C8: the throttled set changes only under a validated command with
tag `throttle_ip` or `unthrottle_ip` and a present, non-empty `target_ip`;
any tag outside the whitelist fails validation and leaves the set (indeed
the whole state) unchanged — in particular the `"exec"` command with target
`1.2.3.4`. -/
theorem command_whitelist :
    (∀ (cmd : Command) (s : ServiceState),
      (commandStep cmd s).throttled_ips ≠ s.throttled_ips →
        cmd.validate = true
        ∧ (cmd.type = "throttle_ip" ∨ cmd.type = "unthrottle_ip")
        ∧ ∃ t, cmd.target_ip = some t ∧ t ≠ "")
    ∧ (∀ (cmd : Command) (s : ServiceState), cmd.type ∉ commandTypes →
        cmd.validate = false
        ∧ (commandStep cmd s).throttled_ips = s.throttled_ips)
    ∧ execCmd.validate = false
    ∧ ∀ s : ServiceState, commandStep execCmd s = s := by
  have hstep : ∀ (cmd : Command) (s : ServiceState),
      cmd.validate = false → commandStep cmd s = s := by
    intro cmd s hv
    simp [commandStep, hv]
  refine ⟨?_, ?_, ?_, ?_⟩
  · intro cmd s hne
    by_cases hv : cmd.validate
    case neg =>
      exact absurd (congrArg ServiceState.throttled_ips
        (hstep cmd s (by simpa using hv))) hne
    refine ⟨hv, ?_⟩
    simp only [commandStep, hv, if_true] at hne
    unfold handleCommand at hne
    by_cases h1 : cmd.type ∈ commandTypes
    case neg => simp [h1] at hne
    by_cases h2 : cmd.type = "throttle_ip"
    · cases htarget : cmd.target_ip with
      | none => simp [h1, h2, htarget] at hne
      | some t =>
          by_cases h3 : t = ""
          · simp [h1, h2, htarget, h3] at hne
          · exact ⟨Or.inl h2, t, rfl, h3⟩
    · by_cases h4 : cmd.type = "unthrottle_ip"
      · cases htarget : cmd.target_ip with
        | none => simp [h1, h2, h4, htarget] at hne
        | some t =>
            by_cases h3 : t = ""
            · simp [h1, h2, h4, htarget, h3] at hne
            · exact ⟨Or.inr h4, t, rfl, h3⟩
      · by_cases h5 : cmd.type = "shutdown"
        · simp [h1, h2, h4, h5, commandTypes] at hne
        · simp [h1, h2, h4, h5, commandTypes] at hne
  · intro cmd s h
    have hv : cmd.validate = false := by
      simp [Command.validate, h]
    exact ⟨hv, congrArg ServiceState.throttled_ips (hstep cmd s hv)⟩
  · decide
  · intro s
    exact hstep execCmd s (by decide)

/-- Witness for C8: the throttled set does change for a valid
`throttle_ip 1.2.3.4` command on the fresh service, and the theorem then
certifies that the command validated. -/
theorem command_whitelist_witness :
    (mkThrottleCmd "1.2.3.4" 0).validate = true :=
  (command_whitelist.1 (mkThrottleCmd "1.2.3.4" 0) (initialService 0)
    (by decide)).1

/-! ## Sanitizer lemmas (C6) -/

/-- Claim C6 as stated is false: a 46-character all-digit string is longer
than 45, yet `sanitize_ip` returns its 45-character truncation, not
"invalid". -/
theorem sanitize_ip_counterexample :
    45 < (String.mk (List.replicate 46 '1')).length
    ∧ sanitize_ip (String.mk (List.replicate 46 '1')) ≠ "invalid"
    ∧ sanitize_ip (String.mk (List.replicate 46 '1'))
        = String.mk (List.replicate 45 '1') := by
  refine ⟨by decide, by decide, by decide⟩

/-- Claim C6 (amended): `sanitize_ip` returns "invalid" exactly when the
input fails `^[\d.:a-fA-F]+$` (which also accepts a single trailing
newline); a matching input is returned truncated to its first 45
characters, hence unchanged when its length is at most 45. Length is never
checked for the "invalid" replacement. -/
theorem sanitize_ip_amended (s : String) :
    (matchesIpPattern s.data = false → sanitize_ip s = "invalid")
    ∧ (matchesIpPattern s.data = true →
        sanitize_ip s = String.mk (s.data.take 45)
        ∧ (s.length ≤ 45 → sanitize_ip s = s)) := by
  obtain ⟨cs⟩ := s
  constructor
  · intro h
    simp [sanitize_ip, h]
  · intro h
    have hval : sanitize_ip (String.mk cs) = String.mk (cs.take 45) := by
      simp [sanitize_ip, h]
    refine ⟨hval, ?_⟩
    intro hlen
    rw [hval]
    have : cs.take 45 = cs := List.take_of_length_le (by simpa using hlen)
    rw [this]

/-- Witness for the amended C6: a well-formed short literal is returned
unchanged. -/
theorem sanitize_ip_amended_witness : sanitize_ip "1.2.3.4" = "1.2.3.4" :=
  ((sanitize_ip_amended "1.2.3.4").2 (by decide)).2 (by decide)

/-! ## Worker quick-check lemmas (C7) -/

/-- Claim C7 is violated by the code: `ThreatIntel` has no `profiles`
attribute (its cache lives in `cache`), so the `hasattr` guard in
`_quick_threat_check` is always false and the cached profile's threat
score is never added: the quick score is independent of the cached score,
and a packet whose source has a cached profile of score 50 (with no other
contribution) still scores 0. -/
theorem quick_check_ignores_profile_score :
    threatIntelHasProfilesAttr = false
    ∧ (∀ (rate_mbps : ℚ) (throttle_count : ℕ) (intelPresent : Bool)
        (cachedScore : Option ℕ) (mlContrib : ℕ),
        quickThreatCheck rate_mbps throttle_count intelPresent cachedScore
            mlContrib
          = quickThreatCheck rate_mbps throttle_count intelPresent none
            mlContrib)
    ∧ quickThreatCheck 0 0 true (some 50) 0 = 0 := by
  refine ⟨by decide, ?_, ?_⟩
  · intro r tc ip cs ml
    simp [quickThreatCheck, threatIntelHasProfilesAttr, threatIntelAttrNames]
  · refine Eq.trans ?_ (rfl : (0 : ℕ) = 0)
    norm_num [quickThreatCheck, threatIntelHasProfilesAttr,
      threatIntelAttrNames]
    decide

/-! ## Scorer lemmas (C5) -/

/-- Claim C5: for every profile the scorer returns the sum of the fired
rules' contributions clipped at 100, which lies in `[0, 100]`, with exactly
one reason per fired rule; the spec's "Scorer combination" profile scores
exactly `min (30+40+20+15) 100 = 100` with 4 reasons. -/
theorem scorer_spec :
    (∀ (cfg : ScoringConfig) (p : IPProfile),
        (ThreatScorer.calculate cfg p).1 = min (contribSum cfg p) 100
        ∧ (ThreatScorer.calculate cfg p).1 ≤ 100
        ∧ (ThreatScorer.calculate cfg p).2.length = firedCount cfg p)
    ∧ (ThreatScorer.calculate defaultScoringConfig kpProfile).1 = 100
    ∧ (ThreatScorer.calculate defaultScoringConfig kpProfile).2.length = 4 := by
  have hgen : ∀ (cfg : ScoringConfig) (p : IPProfile),
      (ThreatScorer.calculate cfg p).1 = min (contribSum cfg p) 100
      ∧ (ThreatScorer.calculate cfg p).1 ≤ 100
      ∧ (ThreatScorer.calculate cfg p).2.length = firedCount cfg p := by
    intro cfg p
    unfold ThreatScorer.calculate contribSum firedCount countryRuleFired
      extremeSpeedFired highSpeedFired throttleRatioFired asnRuleFired
    by_cases hc : p.country ∈ cfg.high_risk_countries <;>
    by_cases he : (100 : ℚ) < p.max_speed_mbps <;>
    by_cases hh : (50 : ℚ) < p.max_speed_mbps <;>
    by_cases hr : 10 < p.total_packets <;>
    by_cases hq : ((2 : ℚ))⁻¹ <
      (p.throttled_packets : ℚ) / (p.total_packets : ℚ) <;>
    cases hf : cfg.suspicious_asn_keywords.find?
      (fun k => containsSub (pyToLower p.asn_description).data k.data) <;>
    simp [extremeSpeedFired, one_div, hc, he, hh, hr, hq, hf]
  refine ⟨hgen, ?_, ?_⟩
  · rw [(hgen defaultScoringConfig kpProfile).1]
    have h1 : countryRuleFired defaultScoringConfig kpProfile = true := by
      decide
    have h2 : extremeSpeedFired kpProfile = true := by decide
    have h3 : highSpeedFired kpProfile = false := by decide
    have h4 : throttleRatioFired kpProfile = true := by
      unfold throttleRatioFired kpProfile
      norm_num
    have h5 : asnRuleFired defaultScoringConfig kpProfile = true := by decide
    rw [contribSum, h1, h2, h3, h4, h5]
    rfl
  · rw [(hgen defaultScoringConfig kpProfile).2.2]
    have h1 : countryRuleFired defaultScoringConfig kpProfile = true := by
      decide
    have h2 : extremeSpeedFired kpProfile = true := by decide
    have h3 : highSpeedFired kpProfile = false := by decide
    have h4 : throttleRatioFired kpProfile = true := by
      unfold throttleRatioFired kpProfile
      norm_num
    have h5 : asnRuleFired defaultScoringConfig kpProfile = true := by decide
    rw [firedCount, h1, h2, h3, h4, h5]
    rfl

/-! ## LRU cache lemmas (C4) -/

theorem filter_length_lt_of_mem {α : Type} (p : α → Bool) (l : List α)
    (a : α) (ha : a ∈ l) (hpa : p a = false) :
    (l.filter p).length < l.length := by
  induction l with
  | nil => cases ha
  | cons b t ih =>
      rcases List.mem_cons.mp ha with h | h
      · subst h
        simp only [List.filter_cons, hpa, if_false, Bool.false_eq_true]
        exact Nat.lt_succ_of_le (List.length_filter_le p t)
      · cases hb : p b
        · simp only [List.filter_cons, hb, if_false, Bool.false_eq_true]
          exact Nat.lt_succ_of_le (List.length_filter_le p t)
        · simp only [List.filter_cons, hb, if_true, List.length_cons]
          exact Nat.succ_lt_succ (ih h)

theorem evictLRU_length_lt (mx : ℕ) (hmx : 1 ≤ mx)
    (c : List (String × IPProfile)) : (evictLRU mx c).length < mx := by
  induction c with
  | nil => simpa [evictLRU] using hmx
  | cons e rest ih =>
      unfold evictLRU
      split
      · exact ih
      · rename_i hcond
        omega

theorem evictLRU_of_lt (mx : ℕ) (c : List (String × IPProfile))
    (h : c.length < mx) : evictLRU mx c = c := by
  cases c with
  | nil => rfl
  | cons e rest =>
      unfold evictLRU
      rw [if_neg (not_le.mpr h)]

theorem evictLRU_at_cap (mx : ℕ) (hmx : 1 ≤ mx)
    (c : List (String × IPProfile)) (h : c.length = mx) :
    evictLRU mx c = c.tail := by
  cases c with
  | nil =>
      simp only [List.length_nil] at h
      omega
  | cons e rest =>
      unfold evictLRU
      rw [if_pos (by rw [h])]
      have hr : rest.length + 1 = mx := by simpa using h
      simpa using evictLRU_of_lt mx rest (by omega)

theorem applyOp_length (mx : ℕ) (hmx : 1 ≤ mx) (ttl : ℚ)
    (c : List (String × IPProfile)) (op : CacheOp)
    (h : c.length ≤ mx) : (applyOp mx ttl c op).length ≤ mx := by
  cases op with
  | putOp k v t =>
      simp only [applyOp, lruPut]
      cases hany : c.any (fun e => decide (e.1 = k)) with
      | true =>
          simp only [if_true]
          obtain ⟨e, he, hek⟩ := List.any_eq_true.mp hany
          have hlt := filter_length_lt_of_mem
            (fun x => decide (¬ x.1 = k)) c e he
            (by simp [of_decide_eq_true hek])
          rw [List.length_append]
          simp only [List.length_cons, List.length_nil]
          omega
      | false =>
          simp only [Bool.false_eq_true, if_false]
          have hlt := evictLRU_length_lt mx hmx c
          rw [List.length_append]
          simp only [List.length_cons, List.length_nil]
          omega
  | getOp k t =>
      simp only [applyOp, lruGet]
      cases hf : c.find? (fun e => decide (e.1 = k)) with
      | none => simpa using h
      | some e =>
          have hpe := List.find?_some hf
          have hek : e.1 = k := by simpa using hpe
          have hm := List.mem_of_find?_eq_some hf
          have hlt := filter_length_lt_of_mem
            (fun x => decide (¬ x.1 = k)) c e hm (by simp [hek])
          by_cases httl : ttl < t - e.2.last_access
          · simp only [httl, if_true]
            exact le_trans (List.length_filter_le _ c) h
          · simp only [httl, if_false]
            rw [List.length_append]
            simp only [List.length_cons, List.length_nil]
            omega

theorem runOps_length (mx : ℕ) (hmx : 1 ≤ mx) (ttl : ℚ)
    (ops : List CacheOp) (c : List (String × IPProfile))
    (h : c.length ≤ mx) : (runOps mx ttl c ops).length ≤ mx := by
  induction ops generalizing c with
  | nil => exact h
  | cons op rest ih =>
      exact ih (applyOp mx ttl c op) (applyOp_length mx hmx ttl c op h)

/-- Claim C4: starting from the empty cache, the size stays at most the
capacity `N ≥ 1` after every operation of any `put`/`get` history; a
`get(k)` that returns a value leaves `k` as the most-recently-accessed
(last) entry; and a `put` of a fresh key at capacity evicts the
least-recently-accessed (first) entry before appending the new one. -/
theorem lru_cache_spec :
    (∀ (max_size : ℕ) (ttl : ℚ) (ops : List CacheOp), 1 ≤ max_size →
        (runOps max_size ttl [] ops).length ≤ max_size)
    ∧ (∀ (ttl now : ℚ) (k : String) (c : List (String × IPProfile))
        (p : IPProfile) (c' : List (String × IPProfile)),
        lruGet ttl now k c = (some p, c') → c'.getLast? = some (k, p))
    ∧ (∀ (max_size : ℕ) (now : ℚ) (k : String) (v : IPProfile)
        (c : List (String × IPProfile)), 1 ≤ max_size →
        c.length = max_size →
        c.any (fun e => decide (e.1 = k)) = false →
        lruPut max_size now k v c
          = c.tail ++ [(k, { v with last_access := now })]) := by
  refine ⟨?_, ?_, ?_⟩
  · intro mx ttl ops hmx
    exact runOps_length mx hmx ttl ops [] (by simp)
  · intro ttl now k c p c' h
    unfold lruGet at h
    cases hf : c.find? (fun e => decide (e.1 = k)) with
    | none =>
        rw [hf] at h
        simp at h
    | some e =>
        rw [hf] at h
        dsimp only at h
        by_cases httl : ttl < now - e.2.last_access
        · rw [if_pos httl] at h
          simp at h
        · rw [if_neg httl] at h
          have hp := congrArg Prod.fst h
          have hc' := congrArg Prod.snd h
          dsimp only at hp hc'
          obtain rfl := Option.some_inj.mp hp
          rw [← hc']
          exact List.getLast?_concat _
  · intro mx now k v c hmx hlen hany
    unfold lruPut
    simp only [hany, Bool.false_eq_true, if_false]
    rw [evictLRU_at_cap mx hmx c hlen]

/-- Witness for C4: a single `put` into an empty capacity-1 cache keeps the
size within bound. -/
theorem lru_cache_spec_witness :
    (runOps 1 0 [] [CacheOp.putOp "a" kpProfile 0]).length ≤ 1 :=
  lru_cache_spec.1 1 0 [CacheOp.putOp "a" kpProfile 0] (by decide)

/-! ## Event-logger integrity lemmas (C9, C10) -/

theorem strTake_ne_empty (s : String) (hs : s.data ≠ []) :
    strTake 16 s ≠ "" := by
  intro h
  unfold strTake at h
  have hdata : s.data.take 16 = [] := by
    have := congrArg String.data h
    simpa using this
  rcases List.take_eq_nil_iff.mp hdata with h16 | hnil
  · simp at h16
  · exact hs hnil

theorem lookupKey_append_sig (entry : List (String × JVal)) (v : JVal)
    (h : lookupKey "_sig" entry = none) :
    lookupKey "_sig" (entry ++ [("_sig", v)]) = some ("_sig", v) := by
  unfold lookupKey at h ⊢
  rw [List.find?_append, h]
  simp

theorem removeKey_append_sig (entry : List (String × JVal)) (v : JVal)
    (h : lookupKey "_sig" entry = none) :
    removeKey "_sig" (entry ++ [("_sig", v)]) = entry := by
  unfold lookupKey at h
  unfold removeKey
  rw [List.filter_append]
  have h1 : entry.filter (fun e => decide (¬ e.1 = "_sig")) = entry :=
    List.filter_eq_self.mpr (by
      intro a ha
      have := List.find?_eq_none.mp h a ha
      simpa using this)
  rw [h1]
  simp

theorem computeHmac_some (hmacHex : String → String → String) (key : String)
    (hkey : ¬ key = "") (data : String) :
    computeHmac hmacHex ⟨true, some key⟩ data
      = strTake 16 (hmacHex key data) := by
  unfold computeHmac
  dsimp only
  rw [if_neg hkey]

theorem verifyEntry_signed (hmacHex : String → String → String) (key : String)
    (hkey : ¬ key = "")
    (hhex : ∀ k d, strTake 16 (hmacHex k d) ≠ "")
    (entry : List (String × JVal)) (h : lookupKey "_sig" entry = none) :
    verifyEntry hmacHex ⟨true, some key⟩
      (signWatchlistEntry hmacHex ⟨true, some key⟩ entry) = true := by
  unfold signWatchlistEntry
  simp only [if_true]
  unfold verifyEntry
  rw [lookupKey_append_sig entry _ h]
  dsimp only
  rw [removeKey_append_sig entry _ h]
  rw [computeHmac_some hmacHex key hkey]
  have hne := hhex key (dumpsSorted entry)
  simp [jvalTruthy, hne]

/-- Claim C9: with integrity enabled and a (non-empty) secret configured,
every watchlist entry written by `save_watchlist` verifies; the stored
`_sig` is the first 16 hex characters of the HMAC over the entry with
`_sig` removed and keys sorted; a record whose non-`_sig` content was
changed so that its (truncated) HMAC differs fails verification; and with
no secret configured verification always returns false. The keyed hash
`hmacHex` abstracts `hmac.new(secret, data, sha256).hexdigest()`; the
tamper conjunct is conditional on the two truncated digests differing,
which is what HMAC's collision resistance provides. -/
theorem watchlist_hmac_integrity :
    ∀ (hmacHex : String → String → String) (key : String), ¬ key = "" →
    (∀ k d, strTake 16 (hmacHex k d) ≠ "") →
    (∀ entries : List (List (String × JVal)),
        (∀ e ∈ entries, lookupKey "_sig" e = none) →
        verifyIntegrity hmacHex ⟨true, some key⟩ ".json"
          (saveWatchlist hmacHex ⟨true, some key⟩ entries) = true)
    ∧ (∀ entry : List (String × JVal), lookupKey "_sig" entry = none →
        lookupKey "_sig" (signWatchlistEntry hmacHex ⟨true, some key⟩ entry)
          = some ("_sig",
              JVal.jstr (strTake 16 (hmacHex key (dumpsSorted entry)))))
    ∧ (∀ entry tampered : List (String × JVal),
        lookupKey "_sig" entry = none →
        lookupKey "_sig" tampered = none →
        strTake 16 (hmacHex key (dumpsSorted tampered))
            ≠ strTake 16 (hmacHex key (dumpsSorted entry)) →
        verifyIntegrity hmacHex ⟨true, some key⟩ ".json"
          [tampered ++ [("_sig",
              JVal.jstr (computeHmac hmacHex ⟨true, some key⟩
                (dumpsSorted entry)))]] = false)
    ∧ (∀ lg : EventLogger, lg.integrity_secret = none →
        ∀ (suffix : String) (data : List (List (String × JVal))),
          verifyIntegrity hmacHex lg suffix data = false) := by
  intro hmacHex key hkey hhex
  refine ⟨?_, ?_, ?_, ?_⟩
  · intro entries hent
    unfold verifyIntegrity
    dsimp only
    rw [if_neg hkey, if_pos rfl]
    rw [List.all_eq_true]
    intro x hx
    obtain ⟨e, he, rfl⟩ := List.mem_map.mp hx
    exact verifyEntry_signed hmacHex key hkey hhex e (hent e he)
  · intro entry h
    unfold signWatchlistEntry
    simp only [if_true]
    rw [lookupKey_append_sig entry _ h]
    rw [computeHmac_some hmacHex key hkey]
  · intro entry tampered hent htamp hne
    unfold verifyIntegrity
    dsimp only
    rw [if_neg hkey, if_pos rfl]
    have hv : verifyEntry hmacHex ⟨true, some key⟩
        (tampered ++ [("_sig",
          JVal.jstr (computeHmac hmacHex ⟨true, some key⟩
            (dumpsSorted entry)))]) = false := by
      unfold verifyEntry
      rw [lookupKey_append_sig tampered _ htamp]
      dsimp only
      rw [removeKey_append_sig tampered _ htamp]
      rw [computeHmac_some hmacHex key hkey,
        computeHmac_some hmacHex key hkey]
      by_cases hz : strTake 16 (hmacHex key (dumpsSorted entry)) = ""
      · simp [jvalTruthy, hz]
      · simp [jvalTruthy, hz]
        exact Ne.symm hne
    simp [hv]
  · intro lg hsec suffix data
    unfold verifyIntegrity
    rw [hsec]

/-- Witness for C9: with the stand-in keyed hash and secret "k", a saved
one-field watchlist entry verifies. -/
theorem watchlist_hmac_integrity_witness :
    verifyIntegrity witnessHmacHex ⟨true, some "k"⟩ ".json"
      (saveWatchlist witnessHmacHex ⟨true, some "k"⟩
        [[("a", JVal.jstr "x")]]) = true :=
  (watchlist_hmac_integrity witnessHmacHex "k" (by decide)
    (fun k d => strTake_ne_empty _
      (by simp [witnessHmacHex, String.data_append]))).1
    [[("a", JVal.jstr "x")]] (by decide)

/-- Claim C10: `verify_integrity` returns true for every file whose suffix
is not `.json` without examining its contents (given a configured secret);
in particular the JSONL events file and the CSV traffic file always pass,
whatever records they hold. -/
theorem verify_integrity_non_json :
    ∀ (hmacHex : String → String → String) (b : Bool) (key : String),
      ¬ key = "" →
      (∀ suffix : String, suffix ≠ ".json" →
        ∀ data, verifyIntegrity hmacHex ⟨b, some key⟩ suffix data = true)
      ∧ fileSuffix EVENTS_LOG_FILENAME = ".jsonl"
      ∧ fileSuffix TRAFFIC_LOG_FILENAME = ".csv"
      ∧ (∀ data, verifyIntegrity hmacHex ⟨b, some key⟩
          (fileSuffix EVENTS_LOG_FILENAME) data = true)
      ∧ (∀ data, verifyIntegrity hmacHex ⟨b, some key⟩
          (fileSuffix TRAFFIC_LOG_FILENAME) data = true) := by
  intro hmacHex b key hkey
  have hgen : ∀ suffix : String, suffix ≠ ".json" →
      ∀ data, verifyIntegrity hmacHex ⟨b, some key⟩ suffix data = true := by
    intro suffix hs data
    unfold verifyIntegrity
    dsimp only
    rw [if_neg hkey, if_neg hs]
  refine ⟨hgen, by decide, by decide, ?_, ?_⟩
  · intro data
    exact hgen _ (by decide) data
  · intro data
    exact hgen _ (by decide) data

/-- Witness for C10: the events-file suffix `.jsonl` passes verification on
arbitrary (here empty) contents. -/
theorem verify_integrity_non_json_witness :
    verifyIntegrity witnessHmacHex ⟨true, some "k"⟩ ".jsonl" [] = true :=
  (verify_integrity_non_json witnessHmacHex true "k" (by decide)).1
    ".jsonl" (by decide) []

end NetShield
